import Mathlib

/-!
# Stereo-inertial synchronisation node

A shallow embedding of `src/stereo_inertial_node.cc`: the three message
buffers (`imgLeftBuf`, `imgRightBuf`, `imuBuf`), the three subscriber
callbacks (`GrabImageLeft`, `GrabImageRight`, `GrabImu`), the image conversion
`GetImage`, and one pass of the body of the `while(1)` loop of `SyncWithImu`.

Conventions of the embedding.

* A `std::queue` is a list whose head is the front; `push` appends at the end.
  `front`, `back` and `pop` on an empty queue are undefined behaviour in C++;
  here they return the fault `Fault.emptyQueue`.
* A `double` is the rational it denotes.  A stamp is the value
  `header.stamp.toSec()` returns.  Comparisons of doubles are comparisons of
  rationals; the subtraction of two doubles is the exact difference rounded
  to binary64 (`doubleSub`), and `maxTimeDiff` is the literal `0.01` rounded to
  binary64.  The conversion of a `double` to the `float` fields of
  `cv::Point3f` is rounding to binary32 (`toFloat`).  Infinite and NaN inputs
  are left out.
* One pass of the loop body is split where the source gives up its locks
  between testing the frames and using them: `SyncWithImuSelect` is lines
  136-163 and `SyncWithImuTrack` is lines 165-194.  `SyncWithImuIter` runs the
  two with nothing in between; `SyncWithImuInterleaved` lets callbacks of the
  subscriber thread run between them.  Inside each part the statements run
  in order, so the mutex operations are omitted.
* `cv_bridge::toCvShare(msg, MONO8)` is an external function; it is a
  parameter `toCvShare` returning either the shared image or the text of the
  exception it throws.
* `TrackStereo` and the publishers are external; a dispatching pass
  returns the arguments of the `TrackStereo` call.
-/

namespace StereoInertial

/-! ## Binary floating point -/

/-- Rounding of a rational to the nearest integer, a tie going to the even one. -/
def roundHalfEven (x : ℚ) : ℤ :=
  if x - ⌊x⌋ < 1 / 2 then ⌊x⌋
  else if 1 / 2 < x - ⌊x⌋ then ⌊x⌋ + 1
  else if ⌊x⌋ % 2 = 0 then ⌊x⌋
  else ⌊x⌋ + 1

/-- The exponent of the unit in the last place of a format with `p` significant
bits and least exponent `emin`, at the non-zero value `x`. -/
def quantumExp (p : ℕ) (emin : ℤ) (x : ℚ) : ℤ :=
  max (Int.log 2 |x| - ((p : ℤ) - 1)) emin

/-- Rounding to the nearest value of the binary format with `p` significant
bits and least exponent `emin`, a tie going to the even significand.  The
exponent is not bounded above. -/
def roundBinary (p : ℕ) (emin : ℤ) (x : ℚ) : ℚ :=
  if x = 0 then 0
  else (roundHalfEven (x / 2 ^ quantumExp p emin x) : ℚ) * 2 ^ quantumExp p emin x

/-- Rounding to binary64.  Overflow is not represented: a result of
magnitude `2^1024` or more stands for an infinity of the same sign, and
compares with every finite double as that infinity does. -/
def toDouble (x : ℚ) : ℚ := roundBinary 53 (-1074) x

/-- The `double` subtraction `a - b`. -/
def doubleSub (a b : ℚ) : ℚ := toDouble (a - b)

/-- A `float`: a finite value or an infinity. -/
inductive F32 where
  | finite (v : ℚ)
  | inf (negative : Bool)
  deriving DecidableEq, Repr

/-- The conversion of a `double` to `float`: rounding to binary32, with
overflow to an infinity. -/
def toFloat (x : ℚ) : F32 :=
  if |roundBinary 24 (-149) x| < 2 ^ 128 then F32.finite (roundBinary 24 (-149) x)
  else F32.inf (decide (x < 0))

/-! ## Data model -/

/-- The part of `sensor_msgs::Image` the node reads: the header time stamp in
seconds, and the payload handed to `cv_bridge`. -/
structure ImageMsg where
  stamp : ℚ
  encoding : String
  data : List Nat
  deriving DecidableEq, Repr

/-- A `geometry_msgs::Vector3`, three `float64` fields. -/
structure Vector3 where
  x : ℚ
  y : ℚ
  z : ℚ
  deriving DecidableEq, Repr

/-- The part of `sensor_msgs::Imu` the node reads. -/
structure ImuMsg where
  stamp : ℚ
  linear_acceleration : Vector3
  angular_velocity : Vector3
  deriving DecidableEq, Repr

/-- A `cv::Mat`: its element type code (`0` is `CV_8UC1`) and its pixels. -/
structure Mat where
  type : Nat
  pixels : List Nat
  deriving DecidableEq, Repr

/-- A `cv::Point3f`, three `float` fields. -/
structure Point3f where
  x : F32
  y : F32
  z : F32
  deriving DecidableEq, Repr

/-- An `ORB_SLAM3::IMU::Point` as built by `Point(acc, gyr, t)`: two `float`
vectors and a `double` time. -/
structure IMUPoint where
  a : Point3f
  w : Point3f
  t : ℚ
  deriving DecidableEq, Repr

/-- The ways an execution can leave defined behaviour. -/
inductive Fault where
  /-- Calling `front`, `back` or `pop` on an empty `std::queue`. -/
  | emptyQueue
  /-- Dereferencing a null `cv_bridge::CvImageConstPtr`. -/
  | nullDeref
  deriving DecidableEq, Repr

/-- What the node writes to its logs. -/
inductive LogLine where
  /-- The line `ROS_ERROR("cv_bridge exception: %s", e.what())`, with the text of `e.what()`. -/
  | cvBridgeException (what : String)
  /-- The line `std::cout << "Error type"`. -/
  | errorType
  deriving DecidableEq, Repr

/-- A computation of the node: the lines logged so far and either a fault or a value. -/
structure Run (α : Type) where
  log : List LogLine
  res : Except Fault α

namespace Run

/-- A computation that logs nothing and returns `a`. -/
def ret {α : Type} (a : α) : Run α := ⟨[], .ok a⟩

/-- A computation that logs nothing and faults. -/
def fault {α : Type} (f : Fault) : Run α := ⟨[], .error f⟩

/-- Sequencing: a fault stops the computation, the log accumulates. -/
def andThen {α β : Type} (m : Run α) (f : α → Run β) : Run β :=
  match m.res with
  | .error e => ⟨m.log, .error e⟩
  | .ok a => ⟨m.log ++ (f a).log, (f a).res⟩

end Run

/-! ## `std::queue` -/

namespace Queue

/-- The `empty()` member. -/
def empty {α : Type} (q : List α) : Bool := q.isEmpty

/-- The `size()` member. -/
def size {α : Type} (q : List α) : Nat := q.length

/-- The `front()` member. -/
def front {α : Type} : List α → Run α
  | [] => Run.fault .emptyQueue
  | x :: _ => Run.ret x

/-- The `back()` member. -/
def back {α : Type} : List α → Run α
  | [] => Run.fault .emptyQueue
  | x :: xs => Run.ret ((x :: xs).getLast (List.cons_ne_nil x xs))

/-- The `pop()` member, returning the queue left. -/
def pop {α : Type} : List α → Run (List α)
  | [] => Run.fault .emptyQueue
  | _ :: xs => Run.ret xs

/-- The `push(x)` member, returning the queue obtained. -/
def push {α : Type} (q : List α) (x : α) : List α := q ++ [x]

end Queue

/-! ## The node -/

/-- The three buffers shared by the callbacks and the synchroniser thread. -/
structure Node where
  imgLeftBuf : List ImageMsg
  imgRightBuf : List ImageMsg
  imuBuf : List ImuMsg
  deriving DecidableEq, Repr

/-- The node at start-up: three empty buffers. -/
def Node.init : Node := ⟨[], [], []⟩

/-- `ImageGrabber::GrabImageLeft`. -/
def GrabImageLeft (s : Node) (img_msg : ImageMsg) : Node :=
  let imgLeftBuf := if !Queue.empty s.imgLeftBuf then s.imgLeftBuf.tail else s.imgLeftBuf
  { s with imgLeftBuf := Queue.push imgLeftBuf img_msg }

/-- `ImageGrabber::GrabImageRight`. -/
def GrabImageRight (s : Node) (img_msg : ImageMsg) : Node :=
  let imgRightBuf := if !Queue.empty s.imgRightBuf then s.imgRightBuf.tail else s.imgRightBuf
  { s with imgRightBuf := Queue.push imgRightBuf img_msg }

/-- `ImuGrabber::GrabImu`. -/
def GrabImu (s : Node) (imu_msg : ImuMsg) : Node :=
  { s with imuBuf := Queue.push s.imuBuf imu_msg }

/-- The constant `const double maxTimeDiff = 0.01`: the literal rounded to binary64. -/
def maxTimeDiff : ℚ := toDouble (1 / 100)

/-- The least exact difference the `double` test `(a-b)>maxTimeDiff` rejects:
the midpoint between `maxTimeDiff` and the next double. -/
def alignLimit : ℚ := 11529215046068471 / 2 ^ 60

/-- `ImageGrabber::GetImage`.  The `try` block leaves `cv_ptr` null when
`toCvShare` throws; the `catch` block logs and falls through to the
dereference `cv_ptr->image`. -/
def GetImage (toCvShare : ImageMsg → Except String Mat) (img_msg : ImageMsg) : Run Mat :=
  let tried : List LogLine × Option Mat :=
    match toCvShare img_msg with
    | .ok image => ([], some image)
    | .error what => ([LogLine.cvBridgeException what], none)
  match tried.2 with
  | none => ⟨tried.1, .error .nullDeref⟩
  | some image =>
    if image.type = 0 then ⟨tried.1, .ok image⟩
    else ⟨tried.1 ++ [LogLine.errorType], .ok image⟩

/-- The `IMU::Point` pushed for the message at the front of `imuBuf`: the
time is the `double` stamp, the components are narrowed to `float` by the
constructors of `cv::Point3f`. -/
def imuPoint (m : ImuMsg) : IMUPoint :=
  let t := m.stamp
  let acc : Point3f := ⟨toFloat m.linear_acceleration.x, toFloat m.linear_acceleration.y,
    toFloat m.linear_acceleration.z⟩
  let gyr : Point3f := ⟨toFloat m.angular_velocity.x, toFloat m.angular_velocity.y,
    toFloat m.angular_velocity.z⟩
  ⟨acc, gyr, t⟩

/-- One of the two stale-frame loops of `SyncWithImu`,
`while((tOther-tThis)>maxTimeDiff && buf.size()>1) { buf.pop(); tThis = buf.front()->header.stamp.toSec(); }`.
For the first loop `buf` is `imgRightBuf`, `tThis` is `tImRight` and `tOther` is `tImLeft`;
for the second the sides are exchanged.  The `match` performs `buf.pop()`.
The result is the final `tThis` and the final buffer. -/
def evictStale (tOther : ℚ) (tThis : ℚ) (buf : List ImageMsg) : Run (ℚ × List ImageMsg) :=
  if doubleSub tOther tThis > maxTimeDiff ∧ Queue.size buf > 1 then
    match buf with
    | [] => Run.fault .emptyQueue
    | _ :: popped =>
      (Queue.front popped).andThen fun m => evictStale tOther m.stamp popped
  else Run.ret (tThis, buf)
termination_by buf.length

/-- The loop that loads the IMU measurements,
`while(!imuBuf.empty() && imuBuf.front()->header.stamp.toSec()<=tImLeft) { ...; vImuMeas.push_back(...); imuBuf.pop(); }`.
The `match` reads `imuBuf.front()` and performs `imuBuf.pop()`.
The result is the final `vImuMeas` and the final `imuBuf`. -/
def drainImu (tImLeft : ℚ) (vImuMeas : List IMUPoint) (imuBuf : List ImuMsg) :
    Run (List IMUPoint × List ImuMsg) :=
  if !Queue.empty imuBuf then
    match imuBuf with
    | [] => Run.fault .emptyQueue
    | m :: popped =>
      if m.stamp ≤ tImLeft then drainImu tImLeft (vImuMeas ++ [imuPoint m]) popped
      else Run.ret (vImuMeas, imuBuf)
  else Run.ret (vImuMeas, imuBuf)

/-- The arguments of one call `mpSLAM->TrackStereo(imLeft,imRight,tImLeft,vImuMeas)`. -/
structure TrackStereoCall where
  imLeft : Mat
  imRight : Mat
  tImLeft : ℚ
  vImuMeas : List IMUPoint
  deriving DecidableEq, Repr

/-- How one pass of the loop body of `SyncWithImu` ended. -/
inductive Outcome where
  /-- The condition of the outer `if` was false. -/
  | idle
  /-- The `continue` taken when the two time stamps differ by more than `maxTimeDiff`. -/
  | bigTimeDiff
  /-- The `continue` taken when `tImLeft` exceeds the stamp at the back of `imuBuf`. -/
  | imuBehind
  /-- The pass reached `TrackStereo` with these arguments. -/
  | tracked (call : TrackStereoCall)
  deriving DecidableEq, Repr

/-- The pass called `TrackStereo`. -/
def Outcome.isTracked : Outcome → Bool
  | .tracked _ => true
  | _ => false

/-- How lines 136-163 of a pass ended. -/
inductive Selected where
  /-- The pass is over: the outer `if` was false or a `continue` was taken. -/
  | deferred (o : Outcome)
  /-- Both tests were passed with this value of `tImLeft`. -/
  | ready (tImLeft : ℚ)
  deriving DecidableEq, Repr

/-- Lines 136-163 of `ImageGrabber::SyncWithImu`: the outer `if`, the reading of the
two front stamps, the two stale-frame loops, the alignment test and the
coverage test. -/
def SyncWithImuSelect (s : Node) : Run (Node × Selected) :=
  if !Queue.empty s.imgLeftBuf && !Queue.empty s.imgRightBuf && !Queue.empty s.imuBuf then
    (Queue.front s.imgLeftBuf).andThen fun l0 =>
    (Queue.front s.imgRightBuf).andThen fun r0 =>
    (evictStale l0.stamp r0.stamp s.imgRightBuf).andThen fun right =>
    (evictStale right.1 l0.stamp s.imgLeftBuf).andThen fun left =>
    let tImLeft := left.1
    let tImRight := right.1
    if doubleSub tImLeft tImRight > maxTimeDiff ∨ doubleSub tImRight tImLeft > maxTimeDiff then
      Run.ret ({ s with imgLeftBuf := left.2, imgRightBuf := right.2 },
        Selected.deferred Outcome.bigTimeDiff)
    else
      (Queue.back s.imuBuf).andThen fun newest =>
      if tImLeft > newest.stamp then
        Run.ret ({ s with imgLeftBuf := left.2, imgRightBuf := right.2 },
          Selected.deferred Outcome.imuBehind)
      else
        Run.ret ({ s with imgLeftBuf := left.2, imgRightBuf := right.2 },
          Selected.ready tImLeft)
  else Run.ret (s, Selected.deferred Outcome.idle)

/-- Lines 165-194 of `ImageGrabber::SyncWithImu`, entered with the value `tImLeft`
that passed the tests: the two images are taken from the fronts of the
buffers as they are now, the IMU queue is drained up to `tImLeft`, and
`TrackStereo` is called. -/
def SyncWithImuTrack (toCvShare : ImageMsg → Except String Mat) (tImLeft : ℚ) (s : Node) :
    Run (Node × Outcome) :=
  (Queue.front s.imgLeftBuf).andThen fun lmsg =>
  (GetImage toCvShare lmsg).andThen fun imLeft =>
  (Queue.pop s.imgLeftBuf).andThen fun imgLeftBuf =>
  (Queue.front s.imgRightBuf).andThen fun rmsg =>
  (GetImage toCvShare rmsg).andThen fun imRight =>
  (Queue.pop s.imgRightBuf).andThen fun imgRightBuf =>
  (if !Queue.empty s.imuBuf then drainImu tImLeft [] s.imuBuf
   else Run.ret ([], s.imuBuf)).andThen fun imu =>
  Run.ret (⟨imgLeftBuf, imgRightBuf, imu.2⟩,
    Outcome.tracked ⟨imLeft, imRight, tImLeft, imu.1⟩)

/-- A message delivered by the subscriber thread. -/
inductive Callback where
  | left (m : ImageMsg)
  | right (m : ImageMsg)
  | imu (m : ImuMsg)
  deriving DecidableEq, Repr

/-- The callback the subscriber thread runs for a message. -/
def Callback.run (s : Node) : Callback → Node
  | .left m => GrabImageLeft s m
  | .right m => GrabImageRight s m
  | .imu m => GrabImu s m

/-- One pass of the loop body during which the subscriber thread runs the
callbacks `between` after line 163 and before line 165, where the pass holds
no lock. -/
def SyncWithImuInterleaved (toCvShare : ImageMsg → Except String Mat) (between : List Callback)
    (s : Node) : Run (Node × Outcome) :=
  (SyncWithImuSelect s).andThen fun sel =>
  match sel.2 with
  | Selected.deferred o => Run.ret (sel.1, o)
  | Selected.ready tImLeft => SyncWithImuTrack toCvShare tImLeft (between.foldl Callback.run sel.1)

/-- One pass of the body of the `while(1)` loop of `ImageGrabber::SyncWithImu`
with no callback running during it, from the buffers `s`: the buffers
afterwards and how the pass ended. -/
def SyncWithImuIter (toCvShare : ImageMsg → Except String Mat) (s : Node) : Run (Node × Outcome) :=
  SyncWithImuInterleaved toCvShare [] s

/-- The first `n` passes of the loop of `SyncWithImu` with no callback in between:
the buffers after them and how each pass ended, in order. -/
def SyncWithImu (toCvShare : ImageMsg → Except String Mat) : Nat → Node → Run (Node × List Outcome)
  | 0, s => Run.ret (s, [])
  | n + 1, s =>
    (SyncWithImuIter toCvShare s).andThen fun r =>
    (SyncWithImu toCvShare n r.1).andThen fun rest =>
    Run.ret (rest.1, r.2 :: rest.2)

/-- One event of the node: a callback delivering a message, or one pass of the synchroniser loop. -/
inductive Step (toCvShare : ImageMsg → Except String Mat) : Node → Node → Prop where
  | grabLeft (s : Node) (m : ImageMsg) : Step toCvShare s (GrabImageLeft s m)
  | grabRight (s : Node) (m : ImageMsg) : Step toCvShare s (GrabImageRight s m)
  | grabImu (s : Node) (m : ImuMsg) : Step toCvShare s (GrabImu s m)
  | sync (s s' : Node) (o : Outcome) (log : List LogLine)
      (h : SyncWithImuIter toCvShare s = ⟨log, .ok (s', o)⟩) : Step toCvShare s s'

/-- The states the node can be in: those reached from three empty buffers by events. -/
inductive Reachable (toCvShare : ImageMsg → Except String Mat) : Node → Prop where
  | init : Reachable toCvShare Node.init
  | step (s s' : Node) (hs : Reachable toCvShare s) (h : Step toCvShare s s') :
      Reachable toCvShare s'

/-- An instance of the external conversion, for evaluating the node on concrete
messages: a `mono8` payload is shared as it is, any other encoding makes
`cv_bridge` throw. -/
def sampleToCvShare (m : ImageMsg) : Except String Mat :=
  if m.encoding = "mono8" then .ok ⟨0, m.data⟩
  else .error ("Unrecognized image encoding [" ++ m.encoding ++ "]")

/-- A `mono8` frame stamped `t`, for concrete evaluations. -/
def sampleFrame (t : ℚ) : ImageMsg := ⟨t, "mono8", [7]⟩

/-- A frame stamped `t` whose encoding `sampleToCvShare` rejects. -/
def sampleBadFrame (t : ℚ) : ImageMsg := ⟨t, "bogus", [7]⟩

/-- The double written `9.81`. -/
def sampleGravity : ℚ := 5522539043063071 / 2 ^ 49

/-- An IMU message stamped `t`, at rest under gravity, for concrete evaluations. -/
def sampleImu (t : ℚ) : ImuMsg := ⟨t, ⟨0, 0, sampleGravity⟩, ⟨0, 0, 0⟩⟩

/-- Frames at `1` and `1.0078125`, with IMU messages at `0.5`, `1` and `2`. -/
def sampleAligned : Node :=
  ⟨[sampleFrame 1], [sampleFrame (129 / 128)], [sampleImu (1 / 2), sampleImu 1, sampleImu 2]⟩

/-- The buffers of `sampleAligned` after the dispatch. -/
def sampleAlignedAfter : Node := ⟨[], [], [sampleImu 2]⟩

/-- The `TrackStereo` call made from `sampleAligned`. -/
def sampleAlignedCall : TrackStereoCall :=
  ⟨⟨0, [7]⟩, ⟨0, [7]⟩, 1, [imuPoint (sampleImu (1 / 2)), imuPoint (sampleImu 1)]⟩

/-- Left at `2.000` and right at `2.050`, with an IMU message at `3`. -/
def sampleMisaligned : Node :=
  ⟨[sampleFrame 2], [sampleFrame (41 / 20)], [sampleImu 3]⟩

/-- Frames aligned at `1.0` with IMU messages only up to `0.9`. -/
def sampleUncovered : Node :=
  ⟨[sampleFrame 1], [sampleFrame 1], [sampleImu (4 / 5), sampleImu (9 / 10)]⟩

/-- An aligned and covered pair whose left frame `sampleToCvShare` rejects. -/
def sampleUndecodable : Node :=
  ⟨[sampleBadFrame 1], [sampleFrame 1], [sampleImu 1]⟩

theorem roundHalfEven_le_add_half (x : ℚ) : (roundHalfEven x : ℚ) ≤ x + 1 / 2 := by
  have h1 := Int.floor_le x
  unfold roundHalfEven
  split_ifs with ha hb hc
  · linarith
  · push_cast
    linarith
  · linarith
  · push_cast
    linarith

theorem sub_half_le_roundHalfEven (x : ℚ) : x - 1 / 2 ≤ (roundHalfEven x : ℚ) := by
  have h2 := Int.lt_floor_add_one x
  unfold roundHalfEven
  split_ifs with ha hb hc
  · linarith
  · push_cast
    linarith
  · linarith
  · push_cast
    linarith

theorem roundHalfEven_le_of_le (x : ℚ) (n : ℤ) (h : x ≤ n) : roundHalfEven x ≤ n := by
  have h1 := roundHalfEven_le_add_half x
  have h2 : (roundHalfEven x : ℚ) < ((n + 1 : ℤ) : ℚ) := by
    push_cast
    linarith
  have h3 : roundHalfEven x < n + 1 := by exact_mod_cast h2
  omega

theorem le_roundHalfEven_of_le (x : ℚ) (n : ℤ) (h : (n : ℚ) ≤ x) : n ≤ roundHalfEven x := by
  have h1 := sub_half_le_roundHalfEven x
  have h2 : ((n - 1 : ℤ) : ℚ) < (roundHalfEven x : ℚ) := by
    push_cast
    linarith
  have h3 : n - 1 < roundHalfEven x := by exact_mod_cast h2
  omega

theorem roundHalfEven_intCast (n : ℤ) : roundHalfEven (n : ℚ) = n :=
  le_antisymm (roundHalfEven_le_of_le _ n (le_refl _)) (le_roundHalfEven_of_le _ n (le_refl _))

theorem roundHalfEven_le_of_lt_add_half (x : ℚ) (n : ℤ) (h : x < n + 1 / 2) :
    roundHalfEven x ≤ n := by
  have h1 := roundHalfEven_le_add_half x
  have h2 : (roundHalfEven x : ℚ) < ((n + 1 : ℤ) : ℚ) := by
    push_cast
    linarith
  have h3 : roundHalfEven x < n + 1 := by exact_mod_cast h2
  omega

theorem le_roundHalfEven_of_sub_half_lt (x : ℚ) (n : ℤ) (h : (n : ℚ) - 1 / 2 < x) :
    n ≤ roundHalfEven x := by
  have h1 := sub_half_le_roundHalfEven x
  have h2 : ((n - 1 : ℤ) : ℚ) < (roundHalfEven x : ℚ) := by
    push_cast
    linarith
  have h3 : n - 1 < roundHalfEven x := by exact_mod_cast h2
  omega

/-- A value less than half a unit from the integer `n` rounds to `n`. -/
theorem roundHalfEven_eq_of_near (x : ℚ) (n : ℤ) (h1 : (n : ℚ) - 1 / 2 < x)
    (h2 : x < n + 1 / 2) : roundHalfEven x = n :=
  le_antisymm (roundHalfEven_le_of_lt_add_half x n h2) (le_roundHalfEven_of_sub_half_lt x n h1)

/-- At or above the midpoint over an odd integer the rounding goes up. -/
theorem succ_le_roundHalfEven_of_odd (x : ℚ) (n : ℤ) (hodd : n % 2 = 1)
    (h : (n : ℚ) + 1 / 2 ≤ x) : n + 1 ≤ roundHalfEven x := by
  rcases eq_or_lt_of_le h with heq | hlt
  · have hfloor : ⌊x⌋ = n := by
      rw [Int.floor_eq_iff, ← heq]
      constructor <;> linarith
    unfold roundHalfEven
    rw [hfloor, ← heq]
    have e1 : (n : ℚ) + 1 / 2 - n = 1 / 2 := by ring
    rw [e1]
    have hne : ¬ n % 2 = 0 := by omega
    simp [hne]
  · apply le_roundHalfEven_of_sub_half_lt
    push_cast
    linarith

theorem two_zpow_pos (e : ℤ) : (0 : ℚ) < 2 ^ e := zpow_pos (by norm_num) e

/-- A value of the format's grid at least as coarse as the grid at `x` bounds
the rounding of `x` from above when it bounds `x` from above. -/
theorem roundBinary_le_of_le (p : ℕ) (emin : ℤ) (x : ℚ) (n k : ℤ)
    (hk : quantumExp p emin x ≤ k) (h : x ≤ n * 2 ^ k) :
    roundBinary p emin x ≤ n * 2 ^ k := by
  unfold roundBinary
  split_ifs with h0
  · rw [h0] at h
    exact h
  · obtain ⟨d, hd⟩ := Int.eq_ofNat_of_zero_le (sub_nonneg.mpr hk)
    have hkd : k = (d : ℤ) + quantumExp p emin x := by omega
    have hpos := two_zpow_pos (quantumExp p emin x)
    have hsplit : (n : ℚ) * 2 ^ k = ((n * 2 ^ d : ℤ) : ℚ) * 2 ^ quantumExp p emin x := by
      rw [hkd, zpow_add₀ (by norm_num : (2 : ℚ) ≠ 0)]
      push_cast
      rw [zpow_natCast]
      ring
    rw [hsplit] at h ⊢
    have hdiv : x / 2 ^ quantumExp p emin x ≤ ((n * 2 ^ d : ℤ) : ℚ) := by
      rw [div_le_iff₀ hpos]
      exact h
    have := roundHalfEven_le_of_le _ _ hdiv
    have hc : (roundHalfEven (x / 2 ^ quantumExp p emin x) : ℚ) ≤ ((n * 2 ^ d : ℤ) : ℚ) := by
      exact_mod_cast this
    exact mul_le_mul_of_nonneg_right hc (le_of_lt hpos)

/-- A value of the format's grid at least as coarse as the grid at `x` bounds
the rounding of `x` from below when it bounds `x` from below. -/
theorem le_roundBinary_of_le (p : ℕ) (emin : ℤ) (x : ℚ) (n k : ℤ)
    (hk : quantumExp p emin x ≤ k) (h : (n : ℚ) * 2 ^ k ≤ x) :
    (n : ℚ) * 2 ^ k ≤ roundBinary p emin x := by
  unfold roundBinary
  split_ifs with h0
  · rw [h0] at h
    exact h
  · obtain ⟨d, hd⟩ := Int.eq_ofNat_of_zero_le (sub_nonneg.mpr hk)
    have hkd : k = (d : ℤ) + quantumExp p emin x := by omega
    have hpos := two_zpow_pos (quantumExp p emin x)
    have hsplit : (n : ℚ) * 2 ^ k = ((n * 2 ^ d : ℤ) : ℚ) * 2 ^ quantumExp p emin x := by
      rw [hkd, zpow_add₀ (by norm_num : (2 : ℚ) ≠ 0)]
      push_cast
      rw [zpow_natCast]
      ring
    rw [hsplit] at h ⊢
    have hdiv : ((n * 2 ^ d : ℤ) : ℚ) ≤ x / 2 ^ quantumExp p emin x := by
      rw [le_div_iff₀ hpos]
      exact h
    have := le_roundHalfEven_of_le _ _ hdiv
    have hc : ((n * 2 ^ d : ℤ) : ℚ) ≤ (roundHalfEven (x / 2 ^ quantumExp p emin x) : ℚ) := by
      exact_mod_cast this
    exact mul_le_mul_of_nonneg_right hc (le_of_lt hpos)

/-- The grid exponent at a positive value below `2 ^ (t + 1)` is at most
`t - (p - 1)`, or the least exponent. -/
theorem quantumExp_le_of_lt (p : ℕ) (emin : ℤ) (x : ℚ) (t : ℤ) (hx : 0 < |x|)
    (h : |x| < 2 ^ (t + 1)) : quantumExp p emin x ≤ max (t - ((p : ℤ) - 1)) emin := by
  unfold quantumExp
  have hlog : Int.log 2 |x| < t + 1 := by
    rw [← Int.lt_zpow_iff_log_lt (by norm_num) hx]
    exact_mod_cast h
  apply max_le_max _ (le_refl _)
  omega

/-- The grid exponent at a value of magnitude in `[2 ^ t, 2 ^ (t + 1))`. -/
theorem quantumExp_eq_of_binade (p : ℕ) (emin : ℤ) (x : ℚ) (t : ℤ) (h1 : 2 ^ t ≤ |x|)
    (h2 : |x| < 2 ^ (t + 1)) : quantumExp p emin x = max (t - ((p : ℤ) - 1)) emin := by
  have hx : 0 < |x| := lt_of_lt_of_le (two_zpow_pos t) h1
  unfold quantumExp
  have hlog1 : Int.log 2 |x| < t + 1 := by
    rw [← Int.lt_zpow_iff_log_lt (by norm_num) hx]
    exact_mod_cast h2
  have hlog2 : t ≤ Int.log 2 |x| := by
    rw [← Int.zpow_le_iff_le_log (by norm_num) hx]
    exact_mod_cast h1
  have : Int.log 2 |x| = t := by omega
  rw [this]

theorem maxTimeDiff_eq : maxTimeDiff = 5764607523034235 / 2 ^ 59 := by
  have hq : quantumExp 53 (-1074) (1 / 100) = -59 := by
    rw [quantumExp_eq_of_binade 53 (-1074) (1 / 100) (-7) (by norm_num [abs_of_pos])
      (by norm_num [abs_of_pos])]
    norm_num
  have hr : roundHalfEven ((1 / 100 : ℚ) / 2 ^ (-59 : ℤ)) = 5764607523034235 :=
    roundHalfEven_eq_of_near _ _ (by norm_num) (by norm_num)
  unfold maxTimeDiff toDouble roundBinary
  rw [if_neg (by norm_num), hq, hr]
  norm_num

theorem alignLimit_eq : alignLimit = maxTimeDiff + 1 / 2 ^ 60 := by
  rw [maxTimeDiff_eq]
  norm_num [alignLimit]

theorem maxTimeDiff_pos : 0 < maxTimeDiff := by
  rw [maxTimeDiff_eq]
  norm_num

theorem maxTimeDiff_lt_alignLimit : maxTimeDiff < alignLimit := by
  rw [alignLimit_eq]
  norm_num

theorem toDouble_le_maxTimeDiff (x : ℚ) (h : x < alignLimit) : toDouble x ≤ maxTimeDiff := by
  have hc : maxTimeDiff = ((5764607523034235 : ℤ) : ℚ) * 2 ^ (-59 : ℤ) := by
    rw [maxTimeDiff_eq]
    norm_num
  rcases le_or_lt x 0 with hx | hx
  · have := roundBinary_le_of_le 53 (-1074) x 0 (quantumExp 53 (-1074) x) (le_refl _)
      (by simpa using hx)
    have h0 : toDouble x ≤ 0 := by simpa [toDouble] using this
    exact le_trans h0 (le_of_lt maxTimeDiff_pos)
  · rcases le_or_lt x maxTimeDiff with hle | hgt
    · have hq : quantumExp 53 (-1074) x ≤ -59 := by
        have := quantumExp_le_of_lt 53 (-1074) x (-7) (by rw [abs_of_pos hx]; exact hx)
          (by
            rw [abs_of_pos hx]
            rw [maxTimeDiff_eq] at hle
            norm_num at hle ⊢
            linarith)
        norm_num at this
        exact this
      rw [hc] at hle ⊢
      exact roundBinary_le_of_le 53 (-1074) x _ _ hq hle
    · have hq : quantumExp 53 (-1074) x = -59 := by
        rw [quantumExp_eq_of_binade 53 (-1074) x (-7)
          (by
            rw [abs_of_pos hx]
            rw [maxTimeDiff_eq] at hgt
            norm_num at hgt ⊢
            linarith)
          (by
            rw [abs_of_pos hx]
            norm_num [alignLimit] at h ⊢
            linarith)]
        norm_num
      have hr : roundHalfEven (x / 2 ^ (-59 : ℤ)) ≤ 5764607523034235 := by
        apply roundHalfEven_le_of_lt_add_half
        norm_num [alignLimit] at h ⊢
        linarith
      have hr' : (roundHalfEven (x / 2 ^ (-59 : ℤ)) : ℚ) ≤ ((5764607523034235 : ℤ) : ℚ) := by
        exact_mod_cast hr
      unfold toDouble roundBinary
      rw [if_neg (ne_of_gt hx), hq, hc]
      exact mul_le_mul_of_nonneg_right hr' (le_of_lt (two_zpow_pos _))

theorem maxTimeDiff_lt_toDouble (x : ℚ) (h : alignLimit ≤ x) : maxTimeDiff < toDouble x := by
  have hx : 0 < x := lt_of_lt_of_le (by norm_num [alignLimit]) h
  rcases lt_or_le x (2 ^ (-6 : ℤ)) with hlt | hge
  · have hq : quantumExp 53 (-1074) x = -59 := by
      rw [quantumExp_eq_of_binade 53 (-1074) x (-7)
        (by
          rw [abs_of_pos hx]
          norm_num [alignLimit] at h ⊢
          linarith)
        (by
          rw [abs_of_pos hx]
          norm_num at hlt ⊢
          linarith)]
      norm_num
    have hr : (5764607523034235 : ℤ) + 1 ≤ roundHalfEven (x / 2 ^ (-59 : ℤ)) := by
      apply succ_le_roundHalfEven_of_odd _ _ (by norm_num)
      norm_num [alignLimit] at h ⊢
      linarith
    have hr' : (((5764607523034235 : ℤ) + 1 : ℤ) : ℚ) ≤
        (roundHalfEven (x / 2 ^ (-59 : ℤ)) : ℚ) := by
      exact_mod_cast hr
    unfold toDouble roundBinary
    rw [if_neg (ne_of_gt hx), hq, maxTimeDiff_eq]
    have := mul_le_mul_of_nonneg_right hr' (le_of_lt (two_zpow_pos (-59)))
    refine lt_of_lt_of_le ?_ this
    norm_num
  · have habs : |x| = x := abs_of_pos hx
    have hlog : (-6 : ℤ) ≤ Int.log 2 |x| := by
      rw [← Int.zpow_le_iff_le_log (by norm_num) (by rw [habs]; exact hx), habs]
      exact_mod_cast hge
    have hq : quantumExp 53 (-1074) x = Int.log 2 |x| - 52 := by
      unfold quantumExp
      rw [max_eq_left]
      · norm_num
      · push_cast
        omega
    have hpow : (((2 : ℤ) ^ 52 : ℤ) : ℚ) * 2 ^ quantumExp 53 (-1074) x = 2 ^ Int.log 2 |x| := by
      have hsplit : (2 : ℚ) ^ Int.log 2 |x| = 2 ^ (Int.log 2 |x| - 52) * 2 ^ (52 : ℤ) := by
        rw [← zpow_add₀ (by norm_num : (2 : ℚ) ≠ 0)]
        congr 1
        ring
      rw [hq, hsplit]
      norm_num
      ring
    have hle : (((2 : ℤ) ^ 52 : ℤ) : ℚ) * 2 ^ quantumExp 53 (-1074) x ≤ x := by
      rw [hpow]
      have := Int.zpow_log_le_self (b := 2) (r := |x|) (by norm_num) (by rw [habs]; exact hx)
      rw [habs] at this ⊢
      exact_mod_cast this
    have := le_roundBinary_of_le 53 (-1074) x _ _ (le_refl _) hle
    rw [hpow] at this
    have h6 : (2 : ℚ) ^ (-6 : ℤ) ≤ 2 ^ Int.log 2 |x| :=
      zpow_le_zpow_right₀ (by norm_num) hlog
    unfold toDouble
    rw [maxTimeDiff_eq]
    refine lt_of_lt_of_le ?_ (le_trans h6 this)
    norm_num

/-- The `double` test `(a-b)>maxTimeDiff` holds exactly when the exact difference
reaches `alignLimit`. -/
theorem doubleSub_gt_maxTimeDiff_iff (a b : ℚ) :
    doubleSub a b > maxTimeDiff ↔ alignLimit ≤ a - b := by
  unfold doubleSub
  constructor
  · intro h
    by_contra hn
    exact absurd h (not_lt.mpr (toDouble_le_maxTimeDiff _ (not_le.mp hn)))
  · intro h
    exact maxTimeDiff_lt_toDouble _ h

/-- The alignment test of `SyncWithImu` lets a pair through exactly when the
exact difference of the stamps is below `alignLimit` in magnitude. -/
theorem aligned_iff (tImLeft tImRight : ℚ) :
    ¬ (doubleSub tImLeft tImRight > maxTimeDiff ∨ doubleSub tImRight tImLeft > maxTimeDiff) ↔
      |tImLeft - tImRight| < alignLimit := by
  rw [doubleSub_gt_maxTimeDiff_iff, doubleSub_gt_maxTimeDiff_iff, abs_lt]
  constructor
  · intro h
    push_neg at h
    constructor <;> linarith [h.1, h.2]
  · rintro ⟨h1, h2⟩
    push_neg
    constructor <;> linarith

theorem toFloat_zero : toFloat 0 = F32.finite 0 := by
  simp [toFloat, roundBinary]

/-! ## Basic facts about the embedding -/

theorem Run.ret_andThen {α β : Type} (a : α) (f : α → Run β) :
    (Run.ret a).andThen f = f a := by
  simp [Run.ret, Run.andThen]

theorem Run.ret_inj {α : Type} {a b : α} {log : List LogLine}
    (h : Run.ret a = (⟨log, .ok b⟩ : Run α)) : log = [] ∧ a = b := by
  simp [Run.ret] at h
  exact ⟨h.1, h.2⟩

theorem Run.andThen_ok {α β : Type} {m : Run α} {f : α → Run β} {log : List LogLine} {b : β}
    (h : m.andThen f = ⟨log, .ok b⟩) :
    ∃ a l1 l2, m = ⟨l1, .ok a⟩ ∧ f a = ⟨l2, .ok b⟩ ∧ log = l1 ++ l2 := by
  obtain ⟨ml, mr⟩ := m
  cases mr with
  | error e => simp [Run.andThen] at h
  | ok a =>
    simp only [Run.andThen, Run.mk.injEq] at h
    refine ⟨a, ml, (f a).log, rfl, ?_, h.1.symm⟩
    rw [← h.2]

set_option maxRecDepth 8192 in
theorem evictStale_short (tOther tThis : ℚ) (buf : List ImageMsg) (h : buf.length ≤ 1) :
    evictStale tOther tThis buf = Run.ret (tThis, buf) := by
  rw [evictStale.eq_def]
  have : ¬ Queue.size buf > 1 := by simp [Queue.size]; omega
  simp [this]

theorem evictStale_cons_cons (tOther tThis : ℚ) (a b : ImageMsg) (rest : List ImageMsg) :
    evictStale tOther tThis (a :: b :: rest) =
      if doubleSub tOther tThis > maxTimeDiff then evictStale tOther b.stamp (b :: rest)
      else Run.ret (tThis, a :: b :: rest) := by
  rw [evictStale]
  by_cases h : doubleSub tOther tThis > maxTimeDiff
  · simp [h, Queue.size, Queue.front, Run.ret_andThen]
  · simp [h]

theorem evictStale_no_diff (tOther tThis : ℚ) (buf : List ImageMsg)
    (h : ¬ doubleSub tOther tThis > maxTimeDiff) :
    evictStale tOther tThis buf = Run.ret (tThis, buf) := by
  rw [evictStale.eq_def]
  simp [h]

/-- What a stale-frame loop does to a non-empty buffer whose front carries `tThis`:
it removes a run `pre` of frames from the front and stops at a frame `m`. -/
theorem evictStale_spec (tOther : ℚ) (as : List ImageMsg) (a : ImageMsg) :
    ∃ pre m rest, evictStale tOther a.stamp (a :: as) = Run.ret (m.stamp, m :: rest) ∧
      a :: as = pre ++ m :: rest ∧
      (doubleSub tOther m.stamp > maxTimeDiff → rest = []) ∧
      (¬ doubleSub tOther a.stamp > maxTimeDiff → pre = []) ∧
      (as = [] → pre = []) := by
  induction as generalizing a with
  | nil =>
    exact ⟨[], a, [], evictStale_short _ _ _ (by simp), by simp, by simp, by simp, by simp⟩
  | cons b rest ih =>
    by_cases h : doubleSub tOther a.stamp > maxTimeDiff
    · obtain ⟨pre, m, rest', h1, h2, h3, _, _⟩ := ih b
      refine ⟨a :: pre, m, rest', ?_, ?_, h3, ?_, ?_⟩
      · rw [evictStale_cons_cons, if_pos h, h1]
      · simp [h2]
      · intro hn; exact absurd h hn
      · simp
    · refine ⟨[], a, b :: rest, ?_, by simp, ?_, by simp, by simp⟩
      · rw [evictStale_cons_cons, if_neg h]
      · intro hn; exact absurd hn h

theorem drainImu_eq (tImLeft : ℚ) (imuBuf : List ImuMsg) (vImuMeas : List IMUPoint) :
    drainImu tImLeft vImuMeas imuBuf =
      Run.ret (vImuMeas ++ (imuBuf.takeWhile fun m => decide (m.stamp ≤ tImLeft)).map imuPoint,
        imuBuf.dropWhile fun m => decide (m.stamp ≤ tImLeft)) := by
  induction imuBuf generalizing vImuMeas with
  | nil => simp [drainImu, Queue.empty]
  | cons m rest ih =>
    rw [drainImu]
    by_cases h : m.stamp ≤ tImLeft
    · simp [Queue.empty, h, ih, List.takeWhile_cons, List.dropWhile_cons]
    · simp [Queue.empty, h, List.takeWhile_cons, List.dropWhile_cons]

theorem SyncWithImuSelect_idle (s : Node)
    (h : s.imgLeftBuf = [] ∨ s.imgRightBuf = [] ∨ s.imuBuf = []) :
    SyncWithImuSelect s = Run.ret (s, Selected.deferred Outcome.idle) := by
  unfold SyncWithImuSelect
  rcases h with h | h | h <;> simp [h, Queue.empty]

/-- Lines 136-163 from three non-empty buffers, with the two stale-frame loops
replaced by what they compute: the loops remove `preL` and `preR` and leave
`l` and `r` at the fronts. -/
theorem SyncWithImuSelect_unfold (l0 : ImageMsg) (ls : List ImageMsg) (r0 : ImageMsg)
    (rs : List ImageMsg) (i0 : ImuMsg) (is : List ImuMsg) :
    ∃ preL l restL preR r restR,
      l0 :: ls = preL ++ l :: restL ∧ r0 :: rs = preR ++ r :: restR ∧
      (¬ doubleSub l0.stamp r0.stamp > maxTimeDiff → preR = []) ∧ (rs = [] → preR = []) ∧
      (¬ doubleSub r.stamp l0.stamp > maxTimeDiff → preL = []) ∧ (ls = [] → preL = []) ∧
      SyncWithImuSelect ⟨l0 :: ls, r0 :: rs, i0 :: is⟩ =
        if doubleSub l.stamp r.stamp > maxTimeDiff ∨ doubleSub r.stamp l.stamp > maxTimeDiff then
          Run.ret (⟨l :: restL, r :: restR, i0 :: is⟩, Selected.deferred Outcome.bigTimeDiff)
        else if l.stamp > ((i0 :: is).getLast (List.cons_ne_nil i0 is)).stamp then
          Run.ret (⟨l :: restL, r :: restR, i0 :: is⟩, Selected.deferred Outcome.imuBehind)
        else
          Run.ret (⟨l :: restL, r :: restR, i0 :: is⟩, Selected.ready l.stamp) := by
  obtain ⟨preR, r, restR, hr1, hr2, _, hr4, hr5⟩ := evictStale_spec l0.stamp rs r0
  obtain ⟨preL, l, restL, hl1, hl2, _, hl4, hl5⟩ := evictStale_spec r.stamp ls l0
  refine ⟨preL, l, restL, preR, r, restR, hl2, hr2, hr4, hr5, hl4, hl5, ?_⟩
  unfold SyncWithImuSelect
  simp only [Queue.empty, List.isEmpty_cons, Bool.not_false, Bool.and_self, if_true,
    Queue.front, Run.ret_andThen, hr1, hl1, Queue.back]

/-- Lines 165-194 from non-empty image buffers, with the IMU loop replaced by
what it computes. -/
theorem SyncWithImuTrack_cons (toCvShare : ImageMsg → Except String Mat) (tImLeft : ℚ)
    (l : ImageMsg) (restL : List ImageMsg) (r : ImageMsg) (restR : List ImageMsg)
    (imuBuf : List ImuMsg) :
    SyncWithImuTrack toCvShare tImLeft ⟨l :: restL, r :: restR, imuBuf⟩ =
      (GetImage toCvShare l).andThen fun imLeft =>
      (GetImage toCvShare r).andThen fun imRight =>
      Run.ret (⟨restL, restR, imuBuf.dropWhile fun m => decide (m.stamp ≤ tImLeft)⟩,
        Outcome.tracked ⟨imLeft, imRight, tImLeft,
          (imuBuf.takeWhile fun m => decide (m.stamp ≤ tImLeft)).map imuPoint⟩) := by
  unfold SyncWithImuTrack
  cases imuBuf with
  | nil => simp [Queue.empty, Queue.front, Queue.pop, Run.ret_andThen]
  | cons i0 is =>
    simp only [Queue.empty, List.isEmpty_cons, Bool.not_false, if_true, Queue.front, Queue.pop,
      Run.ret_andThen, drainImu_eq, List.nil_append]

theorem SyncWithImuIter_idle (toCvShare : ImageMsg → Except String Mat) (s : Node)
    (h : s.imgLeftBuf = [] ∨ s.imgRightBuf = [] ∨ s.imuBuf = []) :
    SyncWithImuIter toCvShare s = Run.ret (s, Outcome.idle) := by
  unfold SyncWithImuIter SyncWithImuInterleaved
  rw [SyncWithImuSelect_idle s h, Run.ret_andThen]

/-- A pass with callbacks between its two parts, from three non-empty buffers. -/
theorem SyncWithImuInterleaved_unfold (toCvShare : ImageMsg → Except String Mat)
    (between : List Callback)
    (l0 : ImageMsg) (ls : List ImageMsg) (r0 : ImageMsg) (rs : List ImageMsg)
    (i0 : ImuMsg) (is : List ImuMsg) :
    ∃ preL l restL preR r restR,
      l0 :: ls = preL ++ l :: restL ∧ r0 :: rs = preR ++ r :: restR ∧
      (¬ doubleSub l0.stamp r0.stamp > maxTimeDiff → preR = []) ∧ (rs = [] → preR = []) ∧
      (¬ doubleSub r.stamp l0.stamp > maxTimeDiff → preL = []) ∧ (ls = [] → preL = []) ∧
      SyncWithImuInterleaved toCvShare between ⟨l0 :: ls, r0 :: rs, i0 :: is⟩ =
        if doubleSub l.stamp r.stamp > maxTimeDiff ∨ doubleSub r.stamp l.stamp > maxTimeDiff then
          Run.ret (⟨l :: restL, r :: restR, i0 :: is⟩, Outcome.bigTimeDiff)
        else if l.stamp > ((i0 :: is).getLast (List.cons_ne_nil i0 is)).stamp then
          Run.ret (⟨l :: restL, r :: restR, i0 :: is⟩, Outcome.imuBehind)
        else
          SyncWithImuTrack toCvShare l.stamp
            (between.foldl Callback.run ⟨l :: restL, r :: restR, i0 :: is⟩) := by
  obtain ⟨preL, l, restL, preR, r, restR, h1, h2, h3, h4, h5, h6, heq⟩ :=
    SyncWithImuSelect_unfold l0 ls r0 rs i0 is
  refine ⟨preL, l, restL, preR, r, restR, h1, h2, h3, h4, h5, h6, ?_⟩
  unfold SyncWithImuInterleaved
  rw [heq]
  split_ifs <;> simp only [Run.ret_andThen]

/-- One pass from three non-empty buffers, with the two stale-frame loops and the
IMU loop replaced by what they compute: the loops remove `preL` and `preR` and
leave `l` and `r` at the fronts. -/
theorem SyncWithImuIter_unfold (toCvShare : ImageMsg → Except String Mat)
    (l0 : ImageMsg) (ls : List ImageMsg) (r0 : ImageMsg) (rs : List ImageMsg)
    (i0 : ImuMsg) (is : List ImuMsg) :
    ∃ preL l restL preR r restR,
      l0 :: ls = preL ++ l :: restL ∧ r0 :: rs = preR ++ r :: restR ∧
      (¬ doubleSub l0.stamp r0.stamp > maxTimeDiff → preR = []) ∧ (rs = [] → preR = []) ∧
      (¬ doubleSub r.stamp l0.stamp > maxTimeDiff → preL = []) ∧ (ls = [] → preL = []) ∧
      SyncWithImuIter toCvShare ⟨l0 :: ls, r0 :: rs, i0 :: is⟩ =
        if doubleSub l.stamp r.stamp > maxTimeDiff ∨ doubleSub r.stamp l.stamp > maxTimeDiff then
          Run.ret (⟨l :: restL, r :: restR, i0 :: is⟩, Outcome.bigTimeDiff)
        else if l.stamp > ((i0 :: is).getLast (List.cons_ne_nil i0 is)).stamp then
          Run.ret (⟨l :: restL, r :: restR, i0 :: is⟩, Outcome.imuBehind)
        else
          (GetImage toCvShare l).andThen fun imLeft =>
          (GetImage toCvShare r).andThen fun imRight =>
          Run.ret (⟨restL, restR, (i0 :: is).dropWhile fun m => decide (m.stamp ≤ l.stamp)⟩,
            Outcome.tracked ⟨imLeft, imRight, l.stamp,
              ((i0 :: is).takeWhile fun m => decide (m.stamp ≤ l.stamp)).map imuPoint⟩) := by
  obtain ⟨preL, l, restL, preR, r, restR, h1, h2, h3, h4, h5, h6, heq⟩ :=
    SyncWithImuInterleaved_unfold toCvShare [] l0 ls r0 rs i0 is
  refine ⟨preL, l, restL, preR, r, restR, h1, h2, h3, h4, h5, h6, ?_⟩
  unfold SyncWithImuIter
  rw [heq, List.foldl_nil, SyncWithImuTrack_cons]

/-- Every way one pass can end without a fault. -/
theorem SyncWithImuIter_ok_cases (toCvShare : ImageMsg → Except String Mat) (s s' : Node)
    (o : Outcome) (log : List LogLine)
    (h : SyncWithImuIter toCvShare s = ⟨log, .ok (s', o)⟩) :
    (o = Outcome.idle ∧ s' = s ∧ log = [] ∧
      (s.imgLeftBuf = [] ∨ s.imgRightBuf = [] ∨ s.imuBuf = [])) ∨
    ∃ preL l restL preR r restR i0 is,
      s.imgLeftBuf = preL ++ l :: restL ∧ s.imgRightBuf = preR ++ r :: restR ∧
      s.imuBuf = i0 :: is ∧
      (s.imgLeftBuf.length ≤ 1 → preL = []) ∧ (s.imgRightBuf.length ≤ 1 → preR = []) ∧
      ((¬ |l.stamp - r.stamp| < alignLimit ∧ o = Outcome.bigTimeDiff ∧ log = [] ∧
          s' = ⟨l :: restL, r :: restR, s.imuBuf⟩) ∨
       (|l.stamp - r.stamp| < alignLimit ∧
          l.stamp > ((i0 :: is).getLast (List.cons_ne_nil i0 is)).stamp ∧
          o = Outcome.imuBehind ∧ log = [] ∧ s' = ⟨l :: restL, r :: restR, s.imuBuf⟩) ∨
       (|l.stamp - r.stamp| < alignLimit ∧
          l.stamp ≤ ((i0 :: is).getLast (List.cons_ne_nil i0 is)).stamp ∧
          ∃ imLeft imRight logL logR,
            GetImage toCvShare l = ⟨logL, .ok imLeft⟩ ∧
            GetImage toCvShare r = ⟨logR, .ok imRight⟩ ∧ log = logL ++ logR ∧
            o = Outcome.tracked ⟨imLeft, imRight, l.stamp,
              (s.imuBuf.takeWhile fun m => decide (m.stamp ≤ l.stamp)).map imuPoint⟩ ∧
            s' = ⟨restL, restR, s.imuBuf.dropWhile fun m => decide (m.stamp ≤ l.stamp)⟩)) := by
  obtain ⟨lb, rb, ib⟩ := s
  rcases lb with _ | ⟨l0, ls⟩
  · rw [SyncWithImuIter_idle _ _ (Or.inl rfl)] at h
    obtain ⟨h1, h2⟩ := Run.ret_inj h
    simp only [Prod.mk.injEq] at h2
    exact Or.inl ⟨h2.2.symm, h2.1.symm, h1, Or.inl rfl⟩
  rcases rb with _ | ⟨r0, rs⟩
  · rw [SyncWithImuIter_idle _ _ (Or.inr (Or.inl rfl))] at h
    obtain ⟨h1, h2⟩ := Run.ret_inj h
    simp only [Prod.mk.injEq] at h2
    exact Or.inl ⟨h2.2.symm, h2.1.symm, h1, Or.inr (Or.inl rfl)⟩
  rcases ib with _ | ⟨i0, is⟩
  · rw [SyncWithImuIter_idle _ _ (Or.inr (Or.inr rfl))] at h
    obtain ⟨h1, h2⟩ := Run.ret_inj h
    simp only [Prod.mk.injEq] at h2
    exact Or.inl ⟨h2.2.symm, h2.1.symm, h1, Or.inr (Or.inr rfl)⟩
  right
  obtain ⟨preL, l, restL, preR, r, restR, hL, hR, _, hR2, _, hL2, heq⟩ :=
    SyncWithImuIter_unfold toCvShare l0 ls r0 rs i0 is
  rw [heq] at h
  refine ⟨preL, l, restL, preR, r, restR, i0, is, hL, hR, rfl, ?_, ?_, ?_⟩
  · intro hlen
    apply hL2
    cases ls with
    | nil => rfl
    | cons a as => simp at hlen
  · intro hlen
    apply hR2
    cases rs with
    | nil => rfl
    | cons a as => simp at hlen
  by_cases h1 : doubleSub l.stamp r.stamp > maxTimeDiff ∨ doubleSub r.stamp l.stamp > maxTimeDiff
  · rw [if_pos h1] at h
    obtain ⟨h3, h4⟩ := Run.ret_inj h
    simp only [Prod.mk.injEq] at h4
    refine Or.inl ⟨?_, h4.2.symm, h3, h4.1.symm⟩
    rw [← aligned_iff]
    exact not_not.mpr h1
  · rw [if_neg h1] at h
    have hal := (aligned_iff _ _).mp h1
    by_cases h2 : l.stamp > ((i0 :: is).getLast (List.cons_ne_nil i0 is)).stamp
    · rw [if_pos h2] at h
      obtain ⟨h3, h4⟩ := Run.ret_inj h
      simp only [Prod.mk.injEq] at h4
      exact Or.inr (Or.inl ⟨hal, h2, h4.2.symm, h3, h4.1.symm⟩)
    · rw [if_neg h2] at h
      obtain ⟨imLeft, logL, log2, hgl, h5, hlog⟩ := Run.andThen_ok h
      obtain ⟨imRight, logR, log3, hgr, h6, hlog2⟩ := Run.andThen_ok h5
      obtain ⟨h7, h8⟩ := Run.ret_inj h6
      simp only [Prod.mk.injEq] at h8
      refine Or.inr (Or.inr ⟨hal, not_lt.mp h2, imLeft, imRight, logL, logR, hgl, hgr, ?_,
        h8.2.symm, h8.1.symm⟩)
      rw [hlog, hlog2, h7, List.append_nil]

theorem GrabImageLeft_buf (s : Node) (m : ImageMsg) (h : s.imgLeftBuf.length ≤ 1) :
    (GrabImageLeft s m).imgLeftBuf = [m] := by
  obtain ⟨lb, rb, ib⟩ := s
  rcases lb with _ | ⟨a, _ | ⟨b, rest⟩⟩
  · simp [GrabImageLeft, Queue.empty, Queue.push]
  · simp [GrabImageLeft, Queue.empty, Queue.push]
  · simp at h

theorem GrabImageRight_buf (s : Node) (m : ImageMsg) (h : s.imgRightBuf.length ≤ 1) :
    (GrabImageRight s m).imgRightBuf = [m] := by
  obtain ⟨lb, rb, ib⟩ := s
  rcases rb with _ | ⟨a, _ | ⟨b, rest⟩⟩
  · simp [GrabImageRight, Queue.empty, Queue.push]
  · simp [GrabImageRight, Queue.empty, Queue.push]
  · simp at h

theorem foldl_GrabImageLeft_buf (fs : List ImageMsg) (hne : fs ≠ []) (s : Node)
    (h : s.imgLeftBuf.length ≤ 1) :
    (fs.foldl GrabImageLeft s).imgLeftBuf = [fs.getLast hne] := by
  induction fs generalizing s with
  | nil => exact absurd rfl hne
  | cons f rest ih =>
    have hf := GrabImageLeft_buf s f h
    cases rest with
    | nil => simpa using hf
    | cons g rest' =>
      rw [List.foldl_cons, ih (List.cons_ne_nil g rest') _ (by simp [hf])]
      simp

theorem foldl_GrabImageRight_buf (fs : List ImageMsg) (hne : fs ≠ []) (s : Node)
    (h : s.imgRightBuf.length ≤ 1) :
    (fs.foldl GrabImageRight s).imgRightBuf = [fs.getLast hne] := by
  induction fs generalizing s with
  | nil => exact absurd rfl hne
  | cons f rest ih =>
    have hf := GrabImageRight_buf s f h
    cases rest with
    | nil => simpa using hf
    | cons g rest' =>
      rw [List.foldl_cons, ih (List.cons_ne_nil g rest') _ (by simp [hf])]
      simp

/-! ## Latest-wins image buffers -/

/-- C1: latest-wins.  For every non-empty sequence `fs` of frames passed one after
another to `GrabImageLeft`, from a left buffer holding at most one frame, the
left buffer afterwards is exactly the last frame of `fs`, so that `front` returns
that frame and `pop` leaves the buffer empty; likewise for `GrabImageRight` and
the right buffer. -/
theorem grab_latest_wins (s : Node) (fs : List ImageMsg) (hne : fs ≠ []) :
    (s.imgLeftBuf.length ≤ 1 →
      (fs.foldl GrabImageLeft s).imgLeftBuf = [fs.getLast hne] ∧
      Queue.front (fs.foldl GrabImageLeft s).imgLeftBuf = Run.ret (fs.getLast hne) ∧
      Queue.pop (fs.foldl GrabImageLeft s).imgLeftBuf = Run.ret []) ∧
    (s.imgRightBuf.length ≤ 1 →
      (fs.foldl GrabImageRight s).imgRightBuf = [fs.getLast hne] ∧
      Queue.front (fs.foldl GrabImageRight s).imgRightBuf = Run.ret (fs.getLast hne) ∧
      Queue.pop (fs.foldl GrabImageRight s).imgRightBuf = Run.ret []) := by
  constructor
  · intro h
    rw [foldl_GrabImageLeft_buf fs hne s h]
    exact ⟨rfl, rfl, rfl⟩
  · intro h
    rw [foldl_GrabImageRight_buf fs hne s h]
    exact ⟨rfl, rfl, rfl⟩

/-- The frames `1.000`, `1.005`, `1.010` put into the start-up buffers leave the last one. -/
theorem grab_latest_wins_witness :
    [sampleFrame 1, sampleFrame (201 / 200), sampleFrame (101 / 100)] ≠ [] ∧
    Node.init.imgLeftBuf.length ≤ 1 ∧ Node.init.imgRightBuf.length ≤ 1 ∧
    Queue.front ([sampleFrame 1, sampleFrame (201 / 200), sampleFrame (101 / 100)].foldl
      GrabImageLeft Node.init).imgLeftBuf = Run.ret (sampleFrame (101 / 100)) ∧
    Queue.front ([sampleFrame 1, sampleFrame (201 / 200), sampleFrame (101 / 100)].foldl
      GrabImageRight Node.init).imgRightBuf = Run.ret (sampleFrame (101 / 100)) :=
  ⟨by simp, by simp [Node.init], by simp [Node.init],
    ((grab_latest_wins Node.init
      [sampleFrame 1, sampleFrame (201 / 200), sampleFrame (101 / 100)] (by simp)).1
        (by simp [Node.init])).2.1,
    ((grab_latest_wins Node.init
      [sampleFrame 1, sampleFrame (201 / 200), sampleFrame (101 / 100)] (by simp)).2
        (by simp [Node.init])).2.1⟩

theorem SyncWithImuIter_length_le (toCvShare : ImageMsg → Except String Mat) (s s' : Node)
    (o : Outcome) (log : List LogLine)
    (h : SyncWithImuIter toCvShare s = ⟨log, .ok (s', o)⟩) :
    s'.imgLeftBuf.length ≤ s.imgLeftBuf.length ∧
      s'.imgRightBuf.length ≤ s.imgRightBuf.length := by
  rcases SyncWithImuIter_ok_cases toCvShare s s' o log h with
    ⟨_, h2, _, _⟩ | ⟨preL, l, restL, preR, r, restR, i0, is, hL, hR, _, _, _, hc⟩
  · rw [h2]
    exact ⟨le_refl _, le_refl _⟩
  · rcases hc with ⟨_, _, _, hs⟩ | ⟨_, _, _, _, hs⟩ | ⟨_, _, _, _, _, _, _, _, _, _, hs⟩ <;>
      · rw [hs, hL, hR]
        simp only [List.length_append, List.length_cons]
        constructor <;> omega

theorem Step_preserves_at_most_one (toCvShare : ImageMsg → Except String Mat) (s s' : Node)
    (h : Step toCvShare s s')
    (hs : s.imgLeftBuf.length ≤ 1 ∧ s.imgRightBuf.length ≤ 1) :
    s'.imgLeftBuf.length ≤ 1 ∧ s'.imgRightBuf.length ≤ 1 := by
  cases h with
  | grabLeft m =>
    refine ⟨?_, ?_⟩
    · rw [GrabImageLeft_buf s m hs.1]
      simp
    · simpa [GrabImageLeft] using hs.2
  | grabRight m =>
    refine ⟨?_, ?_⟩
    · simpa [GrabImageRight] using hs.1
    · rw [GrabImageRight_buf s m hs.2]
      simp
  | grabImu m => simpa [GrabImu] using hs
  | sync _ o log h =>
    have := SyncWithImuIter_length_le toCvShare s s' o log h
    exact ⟨le_trans this.1 hs.1, le_trans this.2 hs.2⟩

/-- C2: invariant I1.  In every state reachable from three empty buffers by
`GrabImageLeft`, `GrabImageRight`, `GrabImu` and passes of the loop body of
`SyncWithImu`, the left image buffer and the right image buffer each hold at
most one frame. -/
theorem reachable_at_most_one_frame (toCvShare : ImageMsg → Except String Mat) (s : Node)
    (h : Reachable toCvShare s) :
    s.imgLeftBuf.length ≤ 1 ∧ s.imgRightBuf.length ≤ 1 := by
  induction h with
  | init => simp [Node.init]
  | step s s' _ hstep ih => exact Step_preserves_at_most_one toCvShare s s' hstep ih

/-! ## The IMU window -/

theorem takeWhile_append_dropWhile_stamp (T : ℚ) (q : List ImuMsg) :
    (q.takeWhile fun m => decide (m.stamp ≤ T)) ++ (q.dropWhile fun m => decide (m.stamp ≤ T)) = q :=
  List.takeWhile_append_dropWhile _ q

theorem dropWhile_stamp_front (T : ℚ) (q : List ImuMsg) :
    (q.dropWhile fun m => decide (m.stamp ≤ T)) = [] ∨
      ∃ m rest, (q.dropWhile fun m => decide (m.stamp ≤ T)) = m :: rest ∧ T < m.stamp := by
  induction q with
  | nil => simp
  | cons a rest ih =>
    by_cases ha : a.stamp ≤ T
    · simpa [List.dropWhile_cons, ha] using ih
    · exact Or.inr ⟨a, rest, by simp [List.dropWhile_cons, ha], not_le.mp ha⟩

theorem foldl_GrabImu (ms : List ImuMsg) (s : Node) :
    ms.foldl GrabImu s = ⟨s.imgLeftBuf, s.imgRightBuf, s.imuBuf ++ ms⟩ := by
  induction ms generalizing s with
  | nil => simp
  | cons m rest ih => simp [ih, GrabImu, Queue.push]

/-- C6: the IMU drain is a prefix split.  For every queue content `q` and cutoff
`T`, the drain returns the points of a window `w` and leaves a queue `r` with
`w ++ r = q`, every message of `w` stamped `≤ T`, and `r` empty or fronted by a
message stamped `> T`; a later drain with any cutoff `T2`, after any messages
`pushed` by `GrabImu`, returns a window `w2` with `w ++ w2 ++ r2 = q ++ pushed`,
so no position of the arrival sequence is returned twice; and `GrabImu` appends
at the back of the queue and touches nothing else. -/
theorem drain_prefix_split (q : List ImuMsg) (T : ℚ) :
    ∃ w r, drainImu T [] q = Run.ret (w.map imuPoint, r) ∧ w ++ r = q ∧
      (∀ m ∈ w, m.stamp ≤ T) ∧
      (r = [] ∨ ∃ m rest, r = m :: rest ∧ T < m.stamp) ∧
      (∀ (T2 : ℚ) (pushed : List ImuMsg) (bl br : List ImageMsg), ∃ w2 r2,
        drainImu T2 [] (pushed.foldl GrabImu ⟨bl, br, r⟩).imuBuf = Run.ret (w2.map imuPoint, r2) ∧
        w ++ w2 ++ r2 = q ++ pushed) ∧
      (∀ (s : Node) (m : ImuMsg), (GrabImu s m).imuBuf = s.imuBuf ++ [m] ∧
        (GrabImu s m).imgLeftBuf = s.imgLeftBuf ∧ (GrabImu s m).imgRightBuf = s.imgRightBuf) := by
  refine ⟨q.takeWhile fun m => decide (m.stamp ≤ T), q.dropWhile fun m => decide (m.stamp ≤ T),
    ?_, takeWhile_append_dropWhile_stamp T q, ?_, dropWhile_stamp_front T q, ?_, ?_⟩
  · rw [drainImu_eq, List.nil_append]
  · intro m hm
    simpa using List.mem_takeWhile_imp hm
  · intro T2 pushed bl br
    refine ⟨(pushed.foldl GrabImu ⟨bl, br, q.dropWhile fun m => decide (m.stamp ≤ T)⟩).imuBuf.takeWhile
        fun m => decide (m.stamp ≤ T2),
      (pushed.foldl GrabImu ⟨bl, br, q.dropWhile fun m => decide (m.stamp ≤ T)⟩).imuBuf.dropWhile
        fun m => decide (m.stamp ≤ T2), ?_, ?_⟩
    · rw [drainImu_eq, List.nil_append]
    · rw [foldl_GrabImu, List.append_assoc, takeWhile_append_dropWhile_stamp,
        ← List.append_assoc, takeWhile_append_dropWhile_stamp]
  · intro s m
    exact ⟨rfl, rfl, rfl⟩

/-! ## Alignment and coverage -/

/-- A pass from non-empty buffers whose fronts differ by less than `alignLimit`:
neither stale-frame loop removes a frame and the alignment test lets the pair
through. -/
theorem SyncWithImuInterleaved_aligned (toCvShare : ImageMsg → Except String Mat)
    (between : List Callback)
    (l : ImageMsg) (ls : List ImageMsg) (r : ImageMsg) (rs : List ImageMsg)
    (i0 : ImuMsg) (is : List ImuMsg) (hal : |l.stamp - r.stamp| < alignLimit) :
    SyncWithImuInterleaved toCvShare between ⟨l :: ls, r :: rs, i0 :: is⟩ =
      if l.stamp > ((i0 :: is).getLast (List.cons_ne_nil i0 is)).stamp then
        Run.ret (⟨l :: ls, r :: rs, i0 :: is⟩, Outcome.imuBehind)
      else
        SyncWithImuTrack toCvShare l.stamp
          (between.foldl Callback.run ⟨l :: ls, r :: rs, i0 :: is⟩) := by
  have hn := (aligned_iff l.stamp r.stamp).mpr hal
  have h1 : ¬ doubleSub l.stamp r.stamp > maxTimeDiff := fun h => hn (Or.inl h)
  have h2 : ¬ doubleSub r.stamp l.stamp > maxTimeDiff := fun h => hn (Or.inr h)
  unfold SyncWithImuInterleaved SyncWithImuSelect
  simp only [Queue.empty, List.isEmpty_cons, Bool.not_false, Bool.and_self, if_true,
    Queue.front, Run.ret_andThen, evictStale_no_diff _ _ _ h1, evictStale_no_diff _ _ _ h2,
    if_neg hn, Queue.back]
  split_ifs <;> simp only [Run.ret_andThen]

theorem SyncWithImuIter_aligned (toCvShare : ImageMsg → Except String Mat)
    (l : ImageMsg) (ls : List ImageMsg) (r : ImageMsg) (rs : List ImageMsg)
    (i0 : ImuMsg) (is : List ImuMsg) (hal : |l.stamp - r.stamp| < alignLimit) :
    SyncWithImuIter toCvShare ⟨l :: ls, r :: rs, i0 :: is⟩ =
      if l.stamp > ((i0 :: is).getLast (List.cons_ne_nil i0 is)).stamp then
        Run.ret (⟨l :: ls, r :: rs, i0 :: is⟩, Outcome.imuBehind)
      else SyncWithImuTrack toCvShare l.stamp ⟨l :: ls, r :: rs, i0 :: is⟩ := by
  unfold SyncWithImuIter
  rw [SyncWithImuInterleaved_aligned toCvShare [] l ls r rs i0 is hal, List.foldl_nil]

/-- One pass from non-empty buffers when the left front is ahead of the only
right frame by `alignLimit` or more. -/
theorem SyncWithImuIter_left_ahead (toCvShare : ImageMsg → Except String Mat)
    (l : ImageMsg) (ls : List ImageMsg) (r : ImageMsg) (i0 : ImuMsg) (is : List ImuMsg)
    (h : alignLimit ≤ l.stamp - r.stamp) :
    SyncWithImuIter toCvShare ⟨l :: ls, [r], i0 :: is⟩ =
      Run.ret (⟨l :: ls, [r], i0 :: is⟩, Outcome.bigTimeDiff) := by
  have h1 : doubleSub l.stamp r.stamp > maxTimeDiff := (doubleSub_gt_maxTimeDiff_iff _ _).mpr h
  have h2 : ¬ doubleSub r.stamp l.stamp > maxTimeDiff := by
    rw [doubleSub_gt_maxTimeDiff_iff]
    have := lt_trans maxTimeDiff_pos maxTimeDiff_lt_alignLimit
    intro h3
    linarith
  unfold SyncWithImuIter SyncWithImuInterleaved SyncWithImuSelect
  simp only [Queue.empty, List.isEmpty_cons, Bool.not_false, Bool.and_self, if_true,
    Queue.front, Run.ret_andThen, evictStale_short _ _ [r] (le_refl 1),
    evictStale_no_diff _ _ _ h2, if_pos (Or.inl h1 :
      doubleSub l.stamp r.stamp > maxTimeDiff ∨ doubleSub r.stamp l.stamp > maxTimeDiff)]

/-- One pass from non-empty buffers when the right front is ahead of the only
left frame by `alignLimit` or more. -/
theorem SyncWithImuIter_right_ahead (toCvShare : ImageMsg → Except String Mat)
    (l : ImageMsg) (r : ImageMsg) (rs : List ImageMsg) (i0 : ImuMsg) (is : List ImuMsg)
    (h : alignLimit ≤ r.stamp - l.stamp) :
    SyncWithImuIter toCvShare ⟨[l], r :: rs, i0 :: is⟩ =
      Run.ret (⟨[l], r :: rs, i0 :: is⟩, Outcome.bigTimeDiff) := by
  have h2 : doubleSub r.stamp l.stamp > maxTimeDiff := (doubleSub_gt_maxTimeDiff_iff _ _).mpr h
  have h1 : ¬ doubleSub l.stamp r.stamp > maxTimeDiff := by
    rw [doubleSub_gt_maxTimeDiff_iff]
    have := lt_trans maxTimeDiff_pos maxTimeDiff_lt_alignLimit
    intro h3
    linarith
  unfold SyncWithImuIter SyncWithImuInterleaved SyncWithImuSelect
  simp only [Queue.empty, List.isEmpty_cons, Bool.not_false, Bool.and_self, if_true,
    Queue.front, Run.ret_andThen, evictStale_short _ _ [l] (le_refl 1),
    evictStale_no_diff _ _ _ h1, if_pos (Or.inr h2 :
      doubleSub l.stamp r.stamp > maxTimeDiff ∨ doubleSub r.stamp l.stamp > maxTimeDiff)]

theorem Queue.back_cons {α : Type} (x : α) (xs : List α) (newest : α)
    (h : Queue.back (x :: xs) = Run.ret newest) :
    (x :: xs).getLast (List.cons_ne_nil x xs) = newest := by
  simp only [Queue.back, Run.ret, Run.mk.injEq, Except.ok.injEq, true_and] at h
  exact h

/-- One pass when every buffered left frame is stamped after the newest IMU
message: it ends at one of the two `continue` statements. -/
theorem SyncWithImuIter_uncovered (toCvShare : ImageMsg → Except String Mat) (s : Node)
    (newest : ImuMsg) (hb : Queue.back s.imuBuf = Run.ret newest)
    (hall : ∀ l ∈ s.imgLeftBuf, newest.stamp < l.stamp) :
    ∃ s' o, SyncWithImuIter toCvShare s = Run.ret (s', o) ∧ o.isTracked = false := by
  obtain ⟨lb, rb, ib⟩ := s
  rcases lb with _ | ⟨l0, ls⟩
  · exact ⟨_, _, SyncWithImuIter_idle _ _ (Or.inl rfl), rfl⟩
  rcases rb with _ | ⟨r0, rs⟩
  · exact ⟨_, _, SyncWithImuIter_idle _ _ (Or.inr (Or.inl rfl)), rfl⟩
  rcases ib with _ | ⟨i0, is⟩
  · exact ⟨_, _, SyncWithImuIter_idle _ _ (Or.inr (Or.inr rfl)), rfl⟩
  obtain ⟨preL, l, restL, preR, r, restR, hL, _, _, _, _, _, heq⟩ :=
    SyncWithImuIter_unfold toCvShare l0 ls r0 rs i0 is
  have hmem : l ∈ l0 :: ls := by
    rw [hL]
    simp
  have hlt := hall l hmem
  rw [← Queue.back_cons i0 is newest hb] at hlt
  rw [heq]
  by_cases h1 : doubleSub l.stamp r.stamp > maxTimeDiff ∨ doubleSub r.stamp l.stamp > maxTimeDiff
  · rw [if_pos h1]
    exact ⟨_, _, rfl, rfl⟩
  · rw [if_neg h1, if_pos hlt]
    exact ⟨_, _, rfl, rfl⟩

/-- The double written `2.05` is at least `2.03125`. -/
theorem le_toDouble_scenarioB : (65 : ℚ) / 32 ≤ toDouble (41 / 20) := by
  have hq : quantumExp 53 (-1074) (41 / 20) ≤ -5 := by
    rw [quantumExp_eq_of_binade 53 (-1074) (41 / 20) 1 (by norm_num [abs_of_pos])
      (by norm_num [abs_of_pos])]
    norm_num
  have := le_roundBinary_of_le 53 (-1074) (41 / 20) 65 (-5) hq (by norm_num)
  unfold toDouble
  refine le_trans ?_ this
  norm_num

/-- The double written `0.9` is at most `0.9375`. -/
theorem toDouble_scenarioC_le : toDouble (9 / 10) ≤ 15 / 16 := by
  have hq : quantumExp 53 (-1074) (9 / 10) ≤ -4 := by
    rw [quantumExp_eq_of_binade 53 (-1074) (9 / 10) (-1) (by norm_num [abs_of_pos])
      (by norm_num [abs_of_pos])]
    norm_num
  have := roundBinary_le_of_le 53 (-1074) (9 / 10) 15 (-4) hq (by norm_num)
  unfold toDouble
  refine le_trans this ?_
  norm_num


theorem SyncWithImu_of_fixed (toCvShare : ImageMsg → Except String Mat) (s : Node) (o : Outcome)
    (h : SyncWithImuIter toCvShare s = Run.ret (s, o)) (n : Nat) :
    SyncWithImu toCvShare n s = Run.ret (s, List.replicate n o) := by
  induction n with
  | zero => rfl
  | succ n ih =>
    rw [SyncWithImu, h, Run.ret_andThen, ih, Run.ret_andThen, List.replicate_succ]

/-- A pass that does not call `TrackStereo`, from buffers of at most one frame,
leaves the three buffers as they were. -/
theorem SyncWithImuIter_deferral (toCvShare : ImageMsg → Except String Mat) (s s' : Node)
    (o : Outcome) (log : List LogLine)
    (hL : s.imgLeftBuf.length ≤ 1) (hR : s.imgRightBuf.length ≤ 1)
    (h : SyncWithImuIter toCvShare s = ⟨log, .ok (s', o)⟩) (ho : o.isTracked = false) :
    s' = s := by
  rcases SyncWithImuIter_ok_cases toCvShare s s' o log h with
    ⟨_, h2, _⟩ | ⟨preL, l, restL, preR, r, restR, i0, is, hLb, hRb, _, hpL, hpR, hc⟩
  · exact h2
  · have hpl := hpL hL
    have hpr := hpR hR
    subst hpl
    subst hpr
    obtain ⟨lb, rb, ib⟩ := s
    simp only [List.nil_append] at hLb hRb
    subst hLb
    subst hRb
    rcases hc with ⟨_, _, _, hs⟩ | ⟨_, _, _, _, hs⟩ | ⟨_, _, _, _, _, _, _, _, _, ho2, _⟩
    · exact hs
    · exact hs
    · rw [ho2] at ho
      simp [Outcome.isTracked] at ho

/-- The three conditions of deferral, on buffers of at most one frame: the pass
returns the buffers as they were, without a fault and without a dispatch. -/
theorem SyncWithImuIter_defers (toCvShare : ImageMsg → Except String Mat) (s : Node)
    (hL : s.imgLeftBuf.length ≤ 1) (hR : s.imgRightBuf.length ≤ 1)
    (h : s.imgLeftBuf = [] ∨ s.imgRightBuf = [] ∨ s.imuBuf = [] ∨
      ∃ l r, s.imgLeftBuf = [l] ∧ s.imgRightBuf = [r] ∧
        ((doubleSub l.stamp r.stamp > maxTimeDiff ∨ doubleSub r.stamp l.stamp > maxTimeDiff) ∨
          ∃ newest, Queue.back s.imuBuf = Run.ret newest ∧ newest.stamp < l.stamp)) :
    ∃ o, o.isTracked = false ∧ SyncWithImuIter toCvShare s = Run.ret (s, o) := by
  have key : ∀ s' o, SyncWithImuIter toCvShare s = Run.ret (s', o) → o.isTracked = false →
      ∃ o, o.isTracked = false ∧ SyncWithImuIter toCvShare s = Run.ret (s, o) := by
    intro s' o h1 h2
    have := SyncWithImuIter_deferral toCvShare s s' o [] hL hR h1 h2
    subst this
    exact ⟨o, h2, h1⟩
  rcases h with h | h | h | ⟨l, r, hl, hr, h⟩
  · exact key _ _ (SyncWithImuIter_idle _ _ (Or.inl h)) rfl
  · exact key _ _ (SyncWithImuIter_idle _ _ (Or.inr (Or.inl h))) rfl
  · exact key _ _ (SyncWithImuIter_idle _ _ (Or.inr (Or.inr h))) rfl
  · obtain ⟨lb, rb, ib⟩ := s
    simp only at hl hr
    subst hl
    subst hr
    rcases ib with _ | ⟨i0, is⟩
    · exact key _ _ (SyncWithImuIter_idle _ _ (Or.inr (Or.inr rfl))) rfl
    rcases h with h | ⟨newest, hb, hlt⟩
    · rcases h with h' | h'
      · exact key _ _ (SyncWithImuIter_left_ahead toCvShare l [] r i0 is
          ((doubleSub_gt_maxTimeDiff_iff _ _).mp h')) rfl
      · exact key _ _ (SyncWithImuIter_right_ahead toCvShare l r [] i0 is
          ((doubleSub_gt_maxTimeDiff_iff _ _).mp h')) rfl
    · obtain ⟨s', o, h1, h2⟩ := SyncWithImuIter_uncovered toCvShare ⟨[l], [r], i0 :: is⟩ newest hb
        (by
          intro l' hl'
          simp only [List.mem_singleton] at hl'
          rw [hl']
          exact hlt)
      exact key s' o h1 h2

/-- C7: deferral consumes nothing.  On buffers of at most one frame each, a pass
that does not call `TrackStereo` leaves the left buffer, the right buffer and
the IMU queue unchanged; each deferral condition (an empty buffer, a pair the
`double` test of the code finds out of tolerance, a left stamp after the back
of `imuBuf`) makes every number of
passes return the same state with no dispatch; so it is with left at `2.000`
and right at `2.050`, and with frames at `1.0` and IMU messages up to `0.9`,
whether `2.050` and `0.9` are read as rationals or as the doubles so written. -/
theorem deferral_consumes_nothing (toCvShare : ImageMsg → Except String Mat) :
    (∀ (s s' : Node) (o : Outcome) (log : List LogLine),
      s.imgLeftBuf.length ≤ 1 → s.imgRightBuf.length ≤ 1 →
      SyncWithImuIter toCvShare s = ⟨log, .ok (s', o)⟩ → o.isTracked = false → s' = s) ∧
    (∀ s : Node, s.imgLeftBuf.length ≤ 1 → s.imgRightBuf.length ≤ 1 →
      (s.imgLeftBuf = [] ∨ s.imgRightBuf = [] ∨ s.imuBuf = [] ∨
        ∃ l r, s.imgLeftBuf = [l] ∧ s.imgRightBuf = [r] ∧
          ((doubleSub l.stamp r.stamp > maxTimeDiff ∨ doubleSub r.stamp l.stamp > maxTimeDiff) ∨
            ∃ newest, Queue.back s.imuBuf = Run.ret newest ∧ newest.stamp < l.stamp)) →
      ∃ o, o.isTracked = false ∧
        ∀ n, SyncWithImu toCvShare n s = Run.ret (s, List.replicate n o)) ∧
    (∀ (l r : ImageMsg) (imu : List ImuMsg), l.stamp = 2 → r.stamp = 41 / 20 →
      ∃ o, o.isTracked = false ∧
        ∀ n, SyncWithImu toCvShare n ⟨[l], [r], imu⟩ =
          Run.ret (⟨[l], [r], imu⟩, List.replicate n o)) ∧
    (∀ (l r : ImageMsg) (imu : List ImuMsg), l.stamp = 1 → r.stamp = 1 →
      (∀ m ∈ imu, m.stamp ≤ 9 / 10) →
      ∃ o, o.isTracked = false ∧
        ∀ n, SyncWithImu toCvShare n ⟨[l], [r], imu⟩ =
          Run.ret (⟨[l], [r], imu⟩, List.replicate n o)) ∧
    (∀ (l r : ImageMsg) (imu : List ImuMsg), l.stamp = 2 → r.stamp = toDouble (41 / 20) →
      ∃ o, o.isTracked = false ∧
        ∀ n, SyncWithImu toCvShare n ⟨[l], [r], imu⟩ =
          Run.ret (⟨[l], [r], imu⟩, List.replicate n o)) ∧
    (∀ (l r : ImageMsg) (imu : List ImuMsg), l.stamp = 1 → r.stamp = 1 →
      (∀ m ∈ imu, m.stamp ≤ toDouble (9 / 10)) →
      ∃ o, o.isTracked = false ∧
        ∀ n, SyncWithImu toCvShare n ⟨[l], [r], imu⟩ =
          Run.ret (⟨[l], [r], imu⟩, List.replicate n o)) := by
  have many : ∀ s : Node, s.imgLeftBuf.length ≤ 1 → s.imgRightBuf.length ≤ 1 →
      (s.imgLeftBuf = [] ∨ s.imgRightBuf = [] ∨ s.imuBuf = [] ∨
        ∃ l r, s.imgLeftBuf = [l] ∧ s.imgRightBuf = [r] ∧
          ((doubleSub l.stamp r.stamp > maxTimeDiff ∨ doubleSub r.stamp l.stamp > maxTimeDiff) ∨
            ∃ newest, Queue.back s.imuBuf = Run.ret newest ∧ newest.stamp < l.stamp)) →
      ∃ o, o.isTracked = false ∧
        ∀ n, SyncWithImu toCvShare n s = Run.ret (s, List.replicate n o) := by
    intro s hL hR h
    obtain ⟨o, ho, hfix⟩ := SyncWithImuIter_defers toCvShare s hL hR h
    exact ⟨o, ho, SyncWithImu_of_fixed toCvShare s o hfix⟩
  refine ⟨?_, many, ?_, ?_, ?_, ?_⟩
  · intro s s' o log hL hR h ho
    exact SyncWithImuIter_deferral toCvShare s s' o log hL hR h ho
  · intro l r imu hl hr
    apply many ⟨[l], [r], imu⟩ (le_refl 1) (le_refl 1)
    refine Or.inr (Or.inr (Or.inr ⟨l, r, rfl, rfl, Or.inl (Or.inr ?_)⟩))
    rw [doubleSub_gt_maxTimeDiff_iff, hl, hr]
    norm_num [alignLimit]
  · intro l r imu hl hr hall
    apply many ⟨[l], [r], imu⟩ (le_refl 1) (le_refl 1)
    rcases imu with _ | ⟨i0, is⟩
    · exact Or.inr (Or.inr (Or.inl rfl))
    · refine Or.inr (Or.inr (Or.inr ⟨l, r, rfl, rfl, Or.inr
        ⟨(i0 :: is).getLast (List.cons_ne_nil i0 is), rfl, ?_⟩⟩))
      have := hall _ (List.getLast_mem (List.cons_ne_nil i0 is))
      rw [hl]
      linarith
  · intro l r imu hl hr
    apply many ⟨[l], [r], imu⟩ (le_refl 1) (le_refl 1)
    refine Or.inr (Or.inr (Or.inr ⟨l, r, rfl, rfl, Or.inl (Or.inr ?_)⟩))
    rw [doubleSub_gt_maxTimeDiff_iff, hl, hr]
    have := le_toDouble_scenarioB
    norm_num [alignLimit]
    linarith
  · intro l r imu hl hr hall
    apply many ⟨[l], [r], imu⟩ (le_refl 1) (le_refl 1)
    rcases imu with _ | ⟨i0, is⟩
    · exact Or.inr (Or.inr (Or.inl rfl))
    · refine Or.inr (Or.inr (Or.inr ⟨l, r, rfl, rfl, Or.inr
        ⟨(i0 :: is).getLast (List.cons_ne_nil i0 is), rfl, ?_⟩⟩))
      have := hall _ (List.getLast_mem (List.cons_ne_nil i0 is))
      have h2 := toDouble_scenarioC_le
      rw [hl]
      linarith

theorem GetImage_ok (toCvShare : ImageMsg → Except String Mat) (m : ImageMsg) (image : Mat)
    (h : toCvShare m = .ok image) :
    GetImage toCvShare m =
      ⟨if image.type = 0 then [] else [LogLine.errorType], .ok image⟩ := by
  unfold GetImage
  rw [h]
  by_cases ht : image.type = 0 <;> simp [ht]

theorem GetImage_error (toCvShare : ImageMsg → Except String Mat) (m : ImageMsg) (what : String)
    (h : toCvShare m = .error what) :
    GetImage toCvShare m = ⟨[LogLine.cvBridgeException what], .error .nullDeref⟩ := by
  unfold GetImage
  rw [h]

theorem GetImage_no_emptyQueue (toCvShare : ImageMsg → Except String Mat) (m : ImageMsg) :
    (∃ image, (GetImage toCvShare m).res = .ok image) ∨
      (GetImage toCvShare m).res = .error .nullDeref := by
  cases h : toCvShare m with
  | ok image =>
    rw [GetImage_ok toCvShare m image h]
    exact Or.inl ⟨image, rfl⟩
  | error what =>
    rw [GetImage_error toCvShare m what h]
    exact Or.inr rfl

/-- C9, what the code does: when `toCvShare` throws on a frame, `GetImage` logs
the exception and then dereferences the null `cv_ptr`; a pass that reaches
`GetImage` for that frame, on the left or on the right, ends in that fault
instead of continuing the loop. -/
theorem decode_failure_faults (toCvShare : ImageMsg → Except String Mat)
    (l r : ImageMsg) (imuBuf : List ImuMsg) (newest : ImuMsg) (what : String)
    (hal : |l.stamp - r.stamp| ≤ maxTimeDiff)
    (hb : Queue.back imuBuf = Run.ret newest) (hcov : l.stamp ≤ newest.stamp) :
    (toCvShare l = .error what →
      GetImage toCvShare l = ⟨[LogLine.cvBridgeException what], .error .nullDeref⟩ ∧
      SyncWithImuIter toCvShare ⟨[l], [r], imuBuf⟩ =
        ⟨[LogLine.cvBridgeException what], .error .nullDeref⟩) ∧
    (toCvShare r = .error what →
      (SyncWithImuIter toCvShare ⟨[l], [r], imuBuf⟩).res = .error .nullDeref) := by
  rcases imuBuf with _ | ⟨i0, is⟩
  · simp [Queue.back, Run.fault, Run.ret] at hb
  · have hlast := Queue.back_cons i0 is newest hb
    constructor
    · intro hl
      refine ⟨GetImage_error toCvShare l what hl, ?_⟩
      rw [SyncWithImuIter_aligned toCvShare l [] r [] i0 is
          (lt_of_le_of_lt hal maxTimeDiff_lt_alignLimit), hlast,
        if_neg (not_lt.mpr hcov), SyncWithImuTrack_cons, GetImage_error toCvShare l what hl]
      simp [Run.andThen]
    · intro hr
      rw [SyncWithImuIter_aligned toCvShare l [] r [] i0 is
          (lt_of_le_of_lt hal maxTimeDiff_lt_alignLimit), hlast,
        if_neg (not_lt.mpr hcov), SyncWithImuTrack_cons, GetImage_error toCvShare r what hr]
      rcases GetImage_no_emptyQueue toCvShare l with ⟨image, h⟩ | h <;>
        simp [Run.andThen, h]

/-- C10: buffer accesses are total.  For every state of the three buffers, one
pass executed with no callback in between never calls `front`, `back` or `pop`
on an empty queue: its result is not the fault `emptyQueue`; the stale-frame
loop returns a value on every buffer and the IMU loop on every queue. -/
theorem buffer_accesses_total (toCvShare : ImageMsg → Except String Mat) (s : Node) :
    (SyncWithImuIter toCvShare s).res ≠ .error .emptyQueue ∧
    (∀ (tOther tThis : ℚ) (buf : List ImageMsg),
      ∃ out, evictStale tOther tThis buf = Run.ret out) ∧
    (∀ (tImLeft : ℚ) (vImuMeas : List IMUPoint) (imuBuf : List ImuMsg),
      ∃ out, drainImu tImLeft vImuMeas imuBuf = Run.ret out) := by
  refine ⟨?_, ?_, ?_⟩
  · obtain ⟨lb, rb, ib⟩ := s
    rcases lb with _ | ⟨l0, ls⟩
    · rw [SyncWithImuIter_idle _ _ (Or.inl rfl)]
      simp [Run.ret]
    rcases rb with _ | ⟨r0, rs⟩
    · rw [SyncWithImuIter_idle _ _ (Or.inr (Or.inl rfl))]
      simp [Run.ret]
    rcases ib with _ | ⟨i0, is⟩
    · rw [SyncWithImuIter_idle _ _ (Or.inr (Or.inr rfl))]
      simp [Run.ret]
    obtain ⟨preL, l, restL, preR, r, restR, _, _, _, _, _, _, heq⟩ :=
      SyncWithImuIter_unfold toCvShare l0 ls r0 rs i0 is
    rw [heq]
    split_ifs
    · simp [Run.ret]
    · simp [Run.ret]
    · rcases GetImage_no_emptyQueue toCvShare l with ⟨imL, hl⟩ | hl <;>
        rcases GetImage_no_emptyQueue toCvShare r with ⟨imR, hr⟩ | hr <;>
          simp [Run.andThen, Run.ret, hl, hr]
  · intro tOther tThis buf
    rcases buf with _ | ⟨a, _ | ⟨b, rest⟩⟩
    · exact ⟨_, evictStale_short _ _ _ (by simp)⟩
    · exact ⟨_, evictStale_short _ _ _ (by simp)⟩
    · rw [evictStale_cons_cons]
      split_ifs
      · obtain ⟨pre, m, rest', h, _⟩ := evictStale_spec tOther rest b
        exact ⟨_, h⟩
      · exact ⟨_, rfl⟩
  · intro tImLeft vImuMeas imuBuf
    exact ⟨_, drainImu_eq _ _ _⟩

/-! ## The node on concrete buffers -/

theorem sampleToCvShare_sampleFrame (t : ℚ) :
    sampleToCvShare (sampleFrame t) = .ok ⟨0, [7]⟩ := by
  simp [sampleToCvShare, sampleFrame]

theorem sampleToCvShare_sampleBadFrame (t : ℚ) :
    sampleToCvShare (sampleBadFrame t) = .error "Unrecognized image encoding [bogus]" := by
  simp [sampleToCvShare, sampleBadFrame]

theorem sampleAligned_dispatch :
    SyncWithImuIter sampleToCvShare sampleAligned =
      ⟨[], .ok (sampleAlignedAfter, Outcome.tracked sampleAlignedCall)⟩ := by
  rw [sampleAligned, SyncWithImuIter_aligned _ _ _ _ _ _ _
    (by norm_num [sampleFrame, alignLimit, abs_of_neg]), SyncWithImuTrack_cons,
    GetImage_ok _ _ _ (sampleToCvShare_sampleFrame _),
    GetImage_ok _ _ _ (sampleToCvShare_sampleFrame _)]
  norm_num [sampleAlignedAfter, sampleAlignedCall, sampleFrame, sampleImu, Run.andThen, Run.ret]

/-- The buffers `sampleAligned` arise from five callbacks on the start-up node,
and `sampleAlignedAfter` from one more pass of the loop; both are reachable
and hold at most one frame a side. -/
theorem reachable_at_most_one_frame_witness :
    Reachable sampleToCvShare sampleAligned ∧
    Reachable sampleToCvShare sampleAlignedAfter ∧
    (sampleAligned.imgLeftBuf.length ≤ 1 ∧ sampleAligned.imgRightBuf.length ≤ 1) ∧
    (sampleAlignedAfter.imgLeftBuf.length ≤ 1 ∧ sampleAlignedAfter.imgRightBuf.length ≤ 1) :=
  have h1 : Reachable sampleToCvShare sampleAligned :=
    Reachable.step _ _ (Reachable.step _ _ (Reachable.step _ _ (Reachable.step _ _
      (Reachable.step _ _ Reachable.init (Step.grabLeft Node.init (sampleFrame 1)))
      (Step.grabRight _ (sampleFrame (129 / 128)))) (Step.grabImu _ (sampleImu (1 / 2))))
      (Step.grabImu _ (sampleImu 1))) (Step.grabImu _ (sampleImu 2))
  have h2 : Reachable sampleToCvShare sampleAlignedAfter :=
    Reachable.step _ _ h1 (Step.sync _ _ _ _ sampleAligned_dispatch)
  ⟨h1, h2, reachable_at_most_one_frame sampleToCvShare sampleAligned h1,
    reachable_at_most_one_frame sampleToCvShare sampleAlignedAfter h2⟩

/-- Any number of passes from `sampleMisaligned` and from `sampleUncovered`
return the same buffers and no dispatch. -/
theorem deferral_consumes_nothing_witness :
    (∃ o, o.isTracked = false ∧
      ∀ n, SyncWithImu sampleToCvShare n sampleMisaligned =
        Run.ret (sampleMisaligned, List.replicate n o)) ∧
    (∃ o, o.isTracked = false ∧
      ∀ n, SyncWithImu sampleToCvShare n sampleUncovered =
        Run.ret (sampleUncovered, List.replicate n o)) :=
  ⟨(deferral_consumes_nothing sampleToCvShare).2.2.1 (sampleFrame 2) (sampleFrame (41 / 20))
      [sampleImu 3] rfl rfl,
    (deferral_consumes_nothing sampleToCvShare).2.2.2.1 (sampleFrame 1) (sampleFrame 1)
      [sampleImu (4 / 5), sampleImu (9 / 10)] rfl rfl
      (by norm_num [sampleImu])⟩

/-- The pass from `sampleUndecodable` logs the exception and ends in the
null dereference. -/
theorem decode_failure_faults_witness :
    sampleToCvShare (sampleBadFrame 1) = .error "Unrecognized image encoding [bogus]" ∧
    GetImage sampleToCvShare (sampleBadFrame 1) =
      ⟨[LogLine.cvBridgeException "Unrecognized image encoding [bogus]"],
        .error .nullDeref⟩ ∧
    SyncWithImuIter sampleToCvShare sampleUndecodable =
      ⟨[LogLine.cvBridgeException "Unrecognized image encoding [bogus]"],
        .error .nullDeref⟩ :=
  ⟨sampleToCvShare_sampleBadFrame 1,
    (decode_failure_faults sampleToCvShare (sampleBadFrame 1) (sampleFrame 1) [sampleImu 1]
      (sampleImu 1) "Unrecognized image encoding [bogus]"
      (by rw [maxTimeDiff_eq]; norm_num [sampleBadFrame, sampleFrame]) rfl
      (by norm_num [sampleBadFrame, sampleImu])).1 (sampleToCvShare_sampleBadFrame 1)⟩

end StereoInertial
